import Mathlib

/-!
Verification of the result-extraction and job-orchestration layer of the
Gen-AI-Exchange contract-analyzer frontend.

The definitions below are a shallow embedding of the TypeScript helpers in
`src/frontend/src/components/ResultsDisplay.tsx` (the Structured Value
Resolver: `getAllJsonFences`, `extractFirstBalanced`, `sliceToFirstJSON`,
`extractAllBalancedObjects`, `extractArray`, `extractObject`,
`unwrapCodeOrQuotes`), of the client-driven stage pipeline and cancel
handler in the same file (`startAnalysis`, `handleCancelJob`, `clearAll`),
and of the polling loop in `src/frontend/src/ui/App.tsx` (`poll`).

JavaScript strings are modelled as Lean `String` / `List Char`; JavaScript
runtime values produced by `JSON.parse` are modelled by the inductive type
`JsonVal`; `JSON.parse` itself is modelled by the executable `jsonParse`
below (fuel-based recursive-descent over the JSON grammar; a parse error,
which throws in JavaScript, is `none`).
-/

namespace GenAIExchange

/-- A JavaScript value that `JSON.parse` can produce: `null`, a boolean, a
number (kept as its source lexeme), a string, an array, or a plain object
(field list in insertion order). -/
inductive JsonVal where
  | null
  | bool (b : Bool)
  | num (lexeme : String)
  | str (s : String)
  | arr (elems : List JsonVal)
  | obj (fields : List (String × JsonVal))
deriving Repr

/-- `Array.isArray(v)` for a parsed JSON value. -/
def isArrVal : JsonVal → Bool
  | .arr _ => true
  | _ => false

/-- The JavaScript test `v && typeof v === 'object' && !Array.isArray(v)` on
a parsed JSON value: `null` is falsy, primitives fail the `typeof` test and
arrays are excluded, so the test holds exactly for plain objects. -/
def isPlainObjVal : JsonVal → Bool
  | .obj _ => true
  | _ => false

/-- Whitespace accepted by the JSON grammar (RFC 8259). -/
def isJsonWs (c : Char) : Bool :=
  c = ' ' || c = '\t' || c = '\n' || c = '\r'

/-- Whitespace as used by JavaScript `String.prototype.trim` and `\s`
(restricted to the ASCII whitespace characters that can occur here). -/
def isWs (c : Char) : Bool :=
  c = ' ' || c = '\t' || c = '\n' || c = '\r' || c = '\x0b' || c = '\x0c'

/-- `String.prototype.trim`: drop whitespace from both ends. -/
def trimChars (l : List Char) : List Char :=
  ((l.dropWhile isWs).reverse.dropWhile isWs).reverse

/-- ASCII decimal digit. -/
def isDigitCh (c : Char) : Bool :=
  '0' ≤ c && c ≤ '9'

/-- Value of a hexadecimal digit (decimal digit, lowercase or uppercase
letter), if any; code-point arithmetic on the character. -/
def hexVal (c : Char) : Option Nat :=
  let n := c.toNat
  if 48 ≤ n && n ≤ 57 then some (n - 48)
  else if 97 ≤ n && n ≤ 102 then some (n - 87)
  else if 65 ≤ n && n ≤ 70 then some (n - 55)
  else none

/-- Body of a JSON string literal after the opening quote: returns the
decoded characters and the input remaining after the closing quote.
Escape sequences are decoded; a raw control character is a parse error. -/
def parseStringAux : Nat → List Char → Option (List Char × List Char)
  | 0, _ => none
  | _, [] => none
  | fuel + 1, c :: cs =>
    if c = '"' then some ([], cs)
    else if c = '\\' then
      match cs with
      | [] => none
      | e :: cs2 =>
        let dec : Option (Char × List Char) :=
          if e = '"' then some ('"', cs2)
          else if e = '\\' then some ('\\', cs2)
          else if e = '/' then some ('/', cs2)
          else if e = 'b' then some ('\x08', cs2)
          else if e = 'f' then some ('\x0c', cs2)
          else if e = 'n' then some ('\n', cs2)
          else if e = 'r' then some ('\r', cs2)
          else if e = 't' then some ('\t', cs2)
          else if e = 'u' then
            match cs2 with
            | h1 :: h2 :: h3 :: h4 :: cs3 =>
              match hexVal h1, hexVal h2, hexVal h3, hexVal h4 with
              | some a, some b, some c2, some d =>
                some (Char.ofNat (((a * 16 + b) * 16 + c2) * 16 + d), cs3)
              | _, _, _, _ => none
            | _ => none
          else none
        match dec with
        | some (ch, rest) =>
          (parseStringAux fuel rest).map (fun p => (ch :: p.1, p.2))
        | none => none
    else if c.toNat < 32 then none
    else (parseStringAux fuel cs).map (fun p => (c :: p.1, p.2))

/-- Longest digit run at the head of the input, and the rest. -/
def spanDigits (l : List Char) : List Char × List Char :=
  (l.takeWhile isDigitCh, l.dropWhile isDigitCh)

/-- JSON number lexeme: `-? (0 | [1-9][0-9]*) (. [0-9]+)? ([eE][+-]?[0-9]+)?`.
Returns the lexeme characters and the remaining input. -/
def parseNumLex (l : List Char) : Option (List Char × List Char) :=
  let sgn : List Char × List Char :=
    match l with
    | '-' :: rest => (['-'], rest)
    | _ => ([], l)
  match sgn.2 with
  | [] => none
  | c :: rest =>
    let intPart : Option (List Char × List Char) :=
      if c = '0' then some (['0'], rest)
      else if isDigitCh c then
        let ds := spanDigits rest
        some (c :: ds.1, ds.2)
      else none
    match intPart with
    | none => none
    | some (ip, afterInt) =>
      let fracPart : Option (List Char × List Char) :=
        match afterInt with
        | '.' :: r2 =>
          let ds := spanDigits r2
          if ds.1.isEmpty then none else some ('.' :: ds.1, ds.2)
        | _ => some ([], afterInt)
      match fracPart with
      | none => none
      | some (fp, afterFrac) =>
        let expPart : Option (List Char × List Char) :=
          match afterFrac with
          | e :: r3 =>
            if e = 'e' || e = 'E' then
              let signRest : List Char × List Char :=
                match r3 with
                | s :: r4 => if s = '+' || s = '-' then ([s], r4) else ([], r3)
                | [] => ([], r3)
              let ds := spanDigits signRest.2
              if ds.1.isEmpty then none else some (e :: signRest.1 ++ ds.1, ds.2)
            else some ([], afterFrac)
          | [] => some ([], afterFrac)
        match expPart with
        | none => none
        | some (ep, afterExp) => some (sgn.1 ++ ip ++ fp ++ ep, afterExp)

/-- Non-empty array tail `v (, v)* ]`, with `pv` parsing one value. -/
def parseArrAux (pv : List Char → Option (JsonVal × List Char)) :
    Nat → List Char → Option (List JsonVal × List Char)
  | 0, _ => none
  | fuel + 1, l =>
    match pv l with
    | none => none
    | some (v, r) =>
      match r.dropWhile isJsonWs with
      | ',' :: r2 => (parseArrAux pv fuel r2).map (fun p => (v :: p.1, p.2))
      | ']' :: r2 => some ([v], r2)
      | _ => none

/-- Non-empty object tail `"k" : v (, "k" : v)* \x7d`, with `pv` parsing one
value. -/
def parseObjAux (pv : List Char → Option (JsonVal × List Char)) :
    Nat → List Char → Option (List (String × JsonVal) × List Char)
  | 0, _ => none
  | fuel + 1, l =>
    match l.dropWhile isJsonWs with
    | '"' :: cs =>
      match parseStringAux (cs.length + 1) cs with
      | none => none
      | some (key, r) =>
        match r.dropWhile isJsonWs with
        | ':' :: r2 =>
          match pv r2 with
          | none => none
          | some (v, r3) =>
            match r3.dropWhile isJsonWs with
            | ',' :: r4 =>
              (parseObjAux pv fuel r4).map
                (fun p => ((key.asString, v) :: p.1, p.2))
            | '\x7d' :: r4 => some ([(key.asString, v)], r4)
            | _ => none
        | _ => none
    | _ => none

/-- One JSON value at the head of the input (leading whitespace allowed),
returning it and the remaining input. The fuel bounds the nesting depth. -/
def parseVal : Nat → List Char → Option (JsonVal × List Char)
  | 0, _ => none
  | fuel + 1, l =>
    match l.dropWhile isJsonWs with
    | [] => none
    | c :: cs =>
      if c = '\x7b' then
        match cs.dropWhile isJsonWs with
        | '\x7d' :: r => some (.obj [], r)
        | _ =>
          (parseObjAux (parseVal fuel) (cs.length + 1) cs).map
            (fun p => (.obj p.1, p.2))
      else if c = '[' then
        match cs.dropWhile isJsonWs with
        | ']' :: r => some (.arr [], r)
        | _ =>
          (parseArrAux (parseVal fuel) (cs.length + 1) cs).map
            (fun p => (.arr p.1, p.2))
      else if c = '"' then
        (parseStringAux (cs.length + 1) cs).map
          (fun p => (.str p.1.asString, p.2))
      else if c = 'n' then
        match cs with
        | 'u' :: 'l' :: 'l' :: r => some (.null, r)
        | _ => none
      else if c = 't' then
        match cs with
        | 'r' :: 'u' :: 'e' :: r => some (.bool true, r)
        | _ => none
      else if c = 'f' then
        match cs with
        | 'a' :: 'l' :: 's' :: 'e' :: r => some (.bool false, r)
        | _ => none
      else
        (parseNumLex (c :: cs)).map (fun p => (.num p.1.asString, p.2))

/-- Model of `JSON.parse(s)`: parse one value and require that only
whitespace remains; `none` models the thrown `SyntaxError`. -/
def jsonParse (s : String) : Option JsonVal :=
  match parseVal (s.length + 1) s.data with
  | some (v, rest) => if (rest.dropWhile isJsonWs).isEmpty then some v else none
  | none => none

/-! ### Fence Extractor (`getAllJsonFences`, ResultsDisplay.tsx lines 59-70)

The source collects every match of the global case-insensitive regex
three-backticks `json \s* ([\s\S]*?)` three-backticks over the trimmed
input, trims each captured body and keeps the non-empty ones, in document
order.  A match needs a literal (case-insensitive) three-backtick `json`
tag followed, after greedy whitespace, by a lazily-nearest closing
three-backtick run; the global scan resumes right after each match. -/

/-- The three-backtick fence delimiter. -/
def tripleTick : List Char := ['`', '`', '`']

/-- The explicit three-backtick `json` fence tag. -/
def jsonTag : List Char := ['`', '`', '`', 'j', 's', 'o', 'n']

/-- Case-insensitive list prefix test (the regex `i` flag). -/
def startsWithCI : List Char → List Char → Bool
  | [], _ => true
  | p :: ps, c :: cs => (p.toLower = c.toLower) && startsWithCI ps cs
  | _ :: _, [] => false

/-- Split at the first (leftmost) case-insensitive occurrence of the
non-empty pattern `pat`: returns the text before the occurrence and the
text after it, or `none` when `pat` does not occur. -/
def splitAtSubstrCI (pat : List Char) : List Char → Option (List Char × List Char)
  | [] => none
  | c :: cs =>
    if startsWithCI pat (c :: cs) then some ([], (c :: cs).drop pat.length)
    else
      match splitAtSubstrCI pat cs with
      | some (pre1, post1) => some (c :: pre1, post1)
      | none => none

/-- Successive regex matches of the fence pattern: find the next tag, skip
the greedy whitespace, cut at the nearest closing delimiter, keep the
trimmed body when non-empty, and continue after the match.  When the tag
has no closing delimiter anywhere after it the regex cannot match there or
later (a later tag would itself provide a closing run), so the scan ends.
The fuel only bounds the recursion; `length + 1` always suffices because
each match consumes at least the tag. -/
def jsonFencesAux : Nat → List Char → List String
  | 0, _ => []
  | fuel + 1, l =>
    match splitAtSubstrCI jsonTag l with
    | none => []
    | some (_, afterTag) =>
      let afterWs := afterTag.dropWhile isWs
      match splitAtSubstrCI tripleTick afterWs with
      | none => []
      | some (body, rest) =>
        let b := trimChars body
        if b.isEmpty then jsonFencesAux fuel rest
        else b.asString :: jsonFencesAux fuel rest

/-- `getAllJsonFences(txt)`: all explicitly-tagged fenced bodies of the
trimmed input, trimmed, non-empty, in document order.  A missing or
non-string or empty (falsy) argument gives the empty list. -/
def getAllJsonFences (txt : Option String) : List String :=
  match txt with
  | none => []
  | some t => if t = "" then [] else jsonFencesAux (t.length + 1) (trimChars t.data)

/-! ### Bracket Scanner (`extractFirstBalanced`, lines 72-109)

The accumulator `acc` replaces the source's `started`/`startIdx` pair:
`none` while no span has started, and once the opening delimiter is seen
it holds (reversed) exactly the characters `s.slice(startIdx, i + 1)`
would contain, since the scan visits the characters in order. -/

/-- One left-to-right pass of `extractFirstBalanced`: three string states
(outside, inside a double-quoted string, inside right after a backslash);
delimiters count only outside a string; the span starts at the first
opening delimiter seen outside a string and ends when depth returns to
zero. -/
def extractFirstBalancedAux (openCh closeCh : Char) :
    List Char → Option (List Char) → Nat → Bool → Bool → Option (List Char)
  | [], _, _, _, _ => none
  | ch :: rest, acc, depth, inStr, escape =>
    if inStr then
      let acc2 := acc.map (fun a => ch :: a)
      if escape then extractFirstBalancedAux openCh closeCh rest acc2 depth true false
      else if ch = '\\' then extractFirstBalancedAux openCh closeCh rest acc2 depth true true
      else if ch = '"' then extractFirstBalancedAux openCh closeCh rest acc2 depth false false
      else extractFirstBalancedAux openCh closeCh rest acc2 depth true false
    else if ch = '"' then
      extractFirstBalancedAux openCh closeCh rest (acc.map (fun a => ch :: a)) depth true false
    else
      match acc with
      | none =>
        if ch = openCh then
          extractFirstBalancedAux openCh closeCh rest (some [ch]) 1 false false
        else extractFirstBalancedAux openCh closeCh rest none depth false false
      | some a =>
        let depth2 := if ch = openCh then depth + 1
                      else if ch = closeCh then depth - 1 else depth
        if depth2 = 0 then some (ch :: a).reverse
        else extractFirstBalancedAux openCh closeCh rest (some (ch :: a)) depth2 false false

/-- `extractFirstBalanced(s, openCh, closeCh)`: the first balanced
top-level `openCh...closeCh` span of `s`, or `null`. -/
def extractFirstBalanced (s : String) (openCh closeCh : Char) : Option String :=
  (extractFirstBalancedAux openCh closeCh s.data none 0 false false).map List.asString

/-- `sliceToFirstJSON(s)` (lines 111-118): prefer the first balanced array
span, then the first balanced object span, else the whole string.  (A
returned span always contains its delimiters, so it is never the empty
string and the source's truthiness tests coincide with `Option`.) -/
def sliceToFirstJSON (s : String) : String :=
  match extractFirstBalanced s '[' ']' with
  | some a => a
  | none =>
    match extractFirstBalanced s '\x7b' '\x7d' with
    | some o => o
    | none => s

/-! ### Recovery scan (`extractAllBalancedObjects`, lines 121-156) -/

/-- The recovery pass: same string-aware scan, collecting every balanced
top-level object span, parsing each independently and keeping those that
parse to a plain object.  `acc` plays the role of `start`: `none` for
`start = -1`, otherwise the (reversed) characters of the open span. -/
def extractAllBalancedObjectsAux :
    List Char → Option (List Char) → Nat → Bool → Bool → List JsonVal
  | [], _, _, _, _ => []
  | ch :: rest, acc, depth, inStr, escape =>
    if inStr then
      let acc2 := acc.map (fun a => ch :: a)
      if escape then extractAllBalancedObjectsAux rest acc2 depth true false
      else if ch = '\\' then extractAllBalancedObjectsAux rest acc2 depth true true
      else if ch = '"' then extractAllBalancedObjectsAux rest acc2 depth false false
      else extractAllBalancedObjectsAux rest acc2 depth true false
    else if ch = '"' then
      extractAllBalancedObjectsAux rest (acc.map (fun a => ch :: a)) depth true false
    else if ch = '\x7b' then
      if depth = 0 then extractAllBalancedObjectsAux rest (some [ch]) 1 false false
      else extractAllBalancedObjectsAux rest (acc.map (fun a => ch :: a)) (depth + 1) false false
    else if ch = '\x7d' then
      let depth2 := depth - 1
      match acc with
      | some a =>
        if depth2 = 0 then
          let seg := (ch :: a).reverse.asString
          let tail := extractAllBalancedObjectsAux rest none 0 false false
          match jsonParse seg with
          | some v => if isPlainObjVal v then v :: tail else tail
          | none => tail
        else extractAllBalancedObjectsAux rest (some (ch :: a)) depth2 false false
      | none => extractAllBalancedObjectsAux rest none depth2 false false
    else extractAllBalancedObjectsAux rest (acc.map (fun a => ch :: a)) depth false false

/-- `extractAllBalancedObjects(s)`: every balanced `\x7b...\x7d` span of
`s` that parses to a plain object, in document order. -/
def extractAllBalancedObjects (s : String) : List JsonVal :=
  extractAllBalancedObjectsAux s.data none 0 false false

/-! ### Structured Value Resolver (`extractArray` lines 158-183,
`extractObject` lines 185-202)

Both source functions run the same two loops over the fence list — direct
`JSON.parse` per fence, then `JSON.parse` of the sliced fence — returning
the first parse of the expected shape; they differ only in the shape test
and in `extractArray`'s final recovery pass, so the loops are shared here
with the shape test as a parameter. -/

/-- First fence whose direct parse satisfies `shape` (first loop of both
resolver functions). -/
def directPass (shape : JsonVal → Bool) : List String → Option JsonVal
  | [] => none
  | f :: fs =>
    match jsonParse f with
    | some v => if shape v then some v else directPass shape fs
    | none => directPass shape fs

/-- First fence whose sliced parse satisfies `shape` (second loop of both
resolver functions). -/
def slicedPass (shape : JsonVal → Bool) : List String → Option JsonVal
  | [] => none
  | f :: fs =>
    match jsonParse (sliceToFirstJSON f) with
    | some v => if shape v then some v else slicedPass shape fs
    | none => slicedPass shape fs

/-- Recovery accumulation across all fences (`recovered.push(...objs)`). -/
def collectRecovered : List String → List JsonVal
  | [] => []
  | f :: fs => extractAllBalancedObjects f ++ collectRecovered fs

/-- `extractArray(txt)`: `null` without fences; else first fence directly
parsing as an array, else first fence slicing-then-parsing as an array,
else all recovered balanced objects when any, else `null`. -/
def extractArray (txt : Option String) : Option JsonVal :=
  let fences := getAllJsonFences txt
  if fences.isEmpty then none
  else
    match directPass isArrVal fences with
    | some v => some v
    | none =>
      match slicedPass isArrVal fences with
      | some v => some v
      | none =>
        let recovered := collectRecovered fences
        if recovered.isEmpty then none else some (.arr recovered)

/-- `extractObject(txt)`: `null` without fences; else first fence directly
parsing as a plain object, else first fence slicing-then-parsing as a
plain object, else `null`. -/
def extractObject (txt : Option String) : Option JsonVal :=
  let fences := getAllJsonFences txt
  if fences.isEmpty then none
  else
    match directPass isPlainObjVal fences with
    | some v => some v
    | none => slicedPass isPlainObjVal fences

/-- `unwrapCodeOrQuotes(txt)` (lines 28-56): never called by the resolver;
extracts the body of the first explicitly-tagged fence (to the closing
delimiter or to the end), else of the first generic fence (the regex pair
when a closing run exists, else everything after the opening run), else
the empty string.  Modelled for the counterexample showing the resolver
ignores generic fences. -/
def unwrapCodeOrQuotes (txt : Option String) : String :=
  match txt with
  | none => ""
  | some t =>
    if t = "" then ""
    else
      let raw := trimChars t.data
      match splitAtSubstrCI jsonTag raw with
      | some (_, afterTag) =>
        match splitAtSubstrCI tripleTick afterTag with
        | some (body, _) => (trimChars body).asString
        | none => (trimChars afterTag).asString
      | none =>
        match splitAtSubstrCI tripleTick raw with
        | none => ""
        | some (_, afterFence) =>
          let afterWs := afterFence.dropWhile isWs
          match splitAtSubstrCI tripleTick afterWs with
          | some (body, _) =>
            if body.isEmpty then (trimChars afterFence).asString
            else (trimChars body).asString
          | none => (trimChars afterFence).asString

/-! ### Client-driven stage pipeline (`startAnalysis`, ResultsDisplay.tsx
lines 593-663, and `handleCancelJob`, lines 665-669)

After the upload, `startAnalysis` runs one `/analyze/section` call per
analysis label, checking `abortRef.current` once before each call and
throwing `Cancelled` when it is set (the `catch` then ends the job, so no
further call happens); after the label loop it runs the `/analyze/finalize`
call.  The network calls are the only suspension points, so the value the
flag has at the `i`-th check is all the pipeline ever reads: we model the
flag as the function from check index to that value, and the pipeline as
the list of stage calls it performs. -/

/-- One network stage invocation of the client-driven pipeline. -/
inductive StageCall where
  | sectionCall (label : String)
  | finalizeCall
deriving DecidableEq, Repr

/-- The fixed analysis stage labels, in execution order (line 611). -/
def analysisLabels : List String :=
  ["purpose", "commercial", "legal_risks", "mitigations", "alert"]

/-- The `for` loop of `startAnalysis`: before the stage at check index `i`
the flag is read; if set, the loop aborts (the thrown `Cancelled` reaches
the `catch`), otherwise the stage call runs to completion and the loop
continues.  Returns the section calls performed and whether the loop
aborted. -/
def sectionLoop (abortFlag : Nat → Bool) : Nat → List String → List StageCall × Bool
  | _, [] => ([], false)
  | i, label :: rest =>
    if abortFlag i then ([], true)
    else
      let next := sectionLoop abortFlag (i + 1) rest
      (.sectionCall label :: next.1, next.2)

/-- The stage calls `startAnalysis` performs on the success path: the
section loop, then — with no further flag check — the finalize call,
unless the loop aborted. -/
def startAnalysisCalls (abortFlag : Nat → Bool) : List StageCall :=
  let run := sectionLoop abortFlag 0 analysisLabels
  if run.2 then run.1 else run.1 ++ [.finalizeCall]

/-- The client state touched by `handleCancelJob`. -/
structure CancelUIState where
  abortFlag : Bool
  loading : Bool
  jobShown : Bool
deriving DecidableEq, Repr

/-- `handleCancelJob`: sets the abort flag (and resets the loading/job UI
state); it performs no network call and does not touch the in-flight
stage. -/
def handleCancelJob (st : CancelUIState) : CancelUIState :=
  { st with abortFlag := true, loading := false, jobShown := false }

/-! ### Status polling loop (`poll`, App.tsx lines 101-128)

`poll` fetches the job status; a network failure makes the `await` throw
(out of the loop — nothing schedules another poll); otherwise, on `done`
with a result it stores the result and returns, on `cancelled` it returns,
on `error` it throws, and on anything else it schedules itself again on
the fixed 1.5 s interval.  We model the sequence of outcomes the network
would return and fold the loop over it, counting the polls performed. -/

/-- Outcome of one status fetch. -/
inductive PollResponse where
  | netFail
  | ok (status : String) (hasResult : Bool)
deriving DecidableEq, Repr

/-- How the polling loop ends. -/
inductive PollEnd where
  | completed
  | stopped
  | threw
  | pending
deriving DecidableEq, Repr

/-- The polling loop over a queue of fetch outcomes, with `n` polls already
performed: a network failure throws immediately (no retry is scheduled); a
response with `status = done` and a result completes; `cancelled` stops;
`error` throws; any other response schedules the next poll.  An exhausted
queue means the loop is still pending on its timer. -/
def pollLoop : List PollResponse → Nat → Nat × PollEnd
  | [], n => (n, .pending)
  | .netFail :: _, n => (n + 1, .threw)
  | .ok status hasResult :: rest, n =>
    if status = "done" && hasResult then (n + 1, .completed)
    else if status = "cancelled" then (n + 1, .stopped)
    else if status = "error" then (n + 1, .threw)
    else pollLoop rest (n + 1)

/-! ### Clearing persisted state (`clearAll`, ResultsDisplay.tsx lines
566-587)

The two durable local-storage keys are `contract_analyzer_job` (the job
snapshot, persisted by the effect at lines 542-552) and
`contract_analyzer_result` (the result bundle, lines 554-564).  `clearAll`
sets the abort flag, issues a best-effort `POST /upload/clear/<id>` when a
job with a truthy id exists, resets the component state, removes both
keys, and reloads the page. -/

/-- The client job snapshot fields `clearAll` looks at. -/
structure JobSnapshot where
  id : String
  status : String
deriving DecidableEq, Repr

/-- Client state visible to `clearAll`. -/
structure ClientState where
  job : Option JobSnapshot
  hasResult : Bool
  loading : Bool
  storedJobKey : Bool
  storedResultKey : Bool
deriving DecidableEq, Repr

/-- The externally observable steps of `clearAll`, in program order. -/
inductive ClearAction where
  | setAbortFlag
  | serverClearCall (id : String)
  | resetComponentState
  | removeJobKey
  | removeResultKey
  | reloadPage
deriving DecidableEq, Repr

/-- `clearAll`: the action sequence it performs and the resulting state.
The server call happens exactly when a job with a truthy (non-empty) id
exists, and it precedes the state reset and the two key removals. -/
def clearAll (st : ClientState) : List ClearAction × ClientState :=
  let callActs : List ClearAction :=
    match st.job with
    | some j => if j.id = "" then [] else [.serverClearCall j.id]
    | none => []
  ([.setAbortFlag] ++ callActs ++
     [.resetComponentState, .removeJobKey, .removeResultKey, .reloadPage],
   { job := none, hasResult := false, loading := false,
     storedJobKey := false, storedResultKey := false })

/-! ### Helper lemmas about the resolver passes -/

/-- Whether `JSON.parse(f)` succeeds with a value satisfying `shape`. -/
def parsesAs (shape : JsonVal → Bool) (f : String) : Bool :=
  match jsonParse f with
  | some v => shape v
  | none => false

theorem directPass_cons_skip (shape : JsonVal → Bool) (g : String)
    (fs : List String) (hg : parsesAs shape g = false) :
    directPass shape (g :: fs) = directPass shape fs := by
  unfold parsesAs at hg
  cases hjp : jsonParse g with
  | none => simp [directPass, hjp]
  | some w =>
    rw [hjp] at hg
    have hg2 : shape w = false := hg
    simp [directPass, hjp, hg2]

theorem directPass_append (shape : JsonVal → Bool) (pre post : List String)
    (f : String) (v : JsonVal)
    (hpre : ∀ g ∈ pre, parsesAs shape g = false)
    (hf : jsonParse f = some v) (hv : shape v = true) :
    directPass shape (pre ++ f :: post) = some v := by
  induction pre with
  | nil => simp [directPass, hf, hv]
  | cons g gs ih =>
    rw [List.cons_append,
      directPass_cons_skip shape g (gs ++ f :: post) (hpre g (by simp))]
    exact ih (fun x hx => hpre x (by simp [hx]))

theorem directPass_shape (shape : JsonVal → Bool) (l : List String) (v : JsonVal)
    (h : directPass shape l = some v) : shape v = true := by
  induction l with
  | nil => simp [directPass] at h
  | cons f fs ih =>
    unfold directPass at h
    split at h
    · split at h
      · cases h
        assumption
      · exact ih h
    · exact ih h

theorem slicedPass_shape (shape : JsonVal → Bool) (l : List String) (v : JsonVal)
    (h : slicedPass shape l = some v) : shape v = true := by
  induction l with
  | nil => simp [slicedPass] at h
  | cons f fs ih =>
    unfold slicedPass at h
    split at h
    · split at h
      · cases h
        assumption
      · exact ih h
    · exact ih h

theorem extractArray_of_direct (txt : Option String) (v : JsonVal)
    (hne : (getAllJsonFences txt).isEmpty = false)
    (hd : directPass isArrVal (getAllJsonFences txt) = some v) :
    extractArray txt = some v := by
  simp [extractArray, hne, hd]

theorem extractObject_of_direct (txt : Option String) (v : JsonVal)
    (hne : (getAllJsonFences txt).isEmpty = false)
    (hd : directPass isPlainObjVal (getAllJsonFences txt) = some v) :
    extractObject txt = some v := by
  simp [extractObject, hne, hd]

theorem resolver_none_of_no_fences (txt : Option String)
    (h : getAllJsonFences txt = []) :
    extractArray txt = none ∧ extractObject txt = none := by
  constructor <;> simp [extractArray, extractObject, h]

theorem isArrVal_elim : ∀ (v : JsonVal), isArrVal v = true → ∃ xs, v = JsonVal.arr xs
  | .arr xs, _ => ⟨xs, rfl⟩
  | .null, h => nomatch h
  | .bool _, h => nomatch h
  | .num _, h => nomatch h
  | .str _, h => nomatch h
  | .obj _, h => nomatch h

theorem isPlainObjVal_elim :
    ∀ (v : JsonVal), isPlainObjVal v = true → ∃ fs, v = JsonVal.obj fs
  | .obj fs, _ => ⟨fs, rfl⟩
  | .null, h => nomatch h
  | .bool _, h => nomatch h
  | .num _, h => nomatch h
  | .str _, h => nomatch h
  | .arr _, h => nomatch h

theorem extractAllBalancedObjectsAux_all_obj :
    ∀ (l : List Char) (acc : Option (List Char)) (depth : Nat) (inStr escape : Bool),
      (extractAllBalancedObjectsAux l acc depth inStr escape).all isPlainObjVal = true := by
  intro l
  induction l with
  | nil => intro acc depth inStr escape; rfl
  | cons ch rest ih =>
    intro acc depth inStr escape
    unfold extractAllBalancedObjectsAux
    split_ifs with h1 h2 h3 h4 h5 h6 h7
    · exact ih _ _ _ _
    · exact ih _ _ _ _
    · exact ih _ _ _ _
    · exact ih _ _ _ _
    · exact ih _ _ _ _
    · exact ih _ _ _ _
    · exact ih _ _ _ _
    · cases acc with
      | none => exact ih _ _ _ _
      | some a =>
        by_cases hd : depth - 1 = 0
        · simp only [hd, if_pos rfl]
          cases hjp : jsonParse ((ch :: a).reverse.asString) with
          | none => exact ih _ _ _ _
          | some v =>
            by_cases hv : isPlainObjVal v = true
            · simp [hv, ih _ _ _ _]
            · simp only [hv]
              simp only [Bool.false_eq_true, if_false]
              exact ih _ _ _ _
        · simp only [if_neg hd]
          exact ih _ _ _ _
    · exact ih _ _ _ _

/-! ### Helper lemmas about the stage pipeline -/

theorem sectionLoop_congr (f g : Nat → Bool) :
    ∀ (ls : List String) (n : Nat),
      (∀ j, n ≤ j → j < n + ls.length → f j = g j) →
      sectionLoop f n ls = sectionLoop g n ls := by
  intro ls
  induction ls with
  | nil => intros; rfl
  | cons label rest ih =>
    intro n h
    have h0 : f n = g n := h n (Nat.le_refl n) (by simp)
    unfold sectionLoop
    rw [h0, ih (n + 1) (fun j hj1 hj2 => h j (by omega) (by simp; omega))]

theorem sectionLoop_honored (f : Nat → Bool) :
    ∀ (ls : List String) (n k : Nat), k < ls.length → f (n + k) = true →
      (∀ m, m < k → f (n + m) = false) →
      sectionLoop f n ls = ((ls.take k).map StageCall.sectionCall, true) := by
  intro ls
  induction ls with
  | nil => intro n k hk _ _; simp at hk
  | cons label rest ih =>
    intro n k hk hfk hm
    cases k with
    | zero =>
      have hfn : f n = true := by simpa using hfk
      unfold sectionLoop
      rw [hfn]
      simp
    | succ k2 =>
      have hfn : f n = false := by simpa using hm 0 (Nat.succ_pos _)
      have harg := ih (n + 1) k2 (by simpa using hk)
        (by
          have he : n + 1 + k2 = n + (k2 + 1) := by omega
          rw [he]; exact hfk)
        (fun m hm2 => by
          have he : n + 1 + m = n + (m + 1) := by omega
          rw [he]; exact hm (m + 1) (by omega))
      unfold sectionLoop
      rw [hfn]
      simp [harg]

/-! ### The claims -/

/-- C1: for every raw text section whose tagged-fence list (in document
order) splits as `pre ++ f :: post`, where no block in `pre` parses
directly to the expected shape and `f` does, the resolver returns exactly
the parsed value of `f` — the earliest directly-parsing block wins, text
outside fences is ignored (the resolver only consumes the fence list), and
no later block's value is ever returned in its place.  Stated for the
array-expecting resolver `extractArray` and the object-expecting resolver
`extractObject`. -/
theorem c1_earliest_fence_direct_parse_wins :
    (∀ (txt : Option String) (pre post : List String) (f : String) (v : JsonVal),
      getAllJsonFences txt = pre ++ f :: post →
      (∀ g ∈ pre, parsesAs isArrVal g = false) →
      jsonParse f = some v → isArrVal v = true →
      extractArray txt = some v) ∧
    (∀ (txt : Option String) (pre post : List String) (f : String) (v : JsonVal),
      getAllJsonFences txt = pre ++ f :: post →
      (∀ g ∈ pre, parsesAs isPlainObjVal g = false) →
      jsonParse f = some v → isPlainObjVal v = true →
      extractObject txt = some v) := by
  constructor <;> intro txt pre post f v hsplit hpre hf hv
  · apply extractArray_of_direct
    · rw [hsplit]; cases pre <;> rfl
    · rw [hsplit]; exact directPass_append _ _ _ _ _ hpre hf hv
  · apply extractObject_of_direct
    · rw [hsplit]; cases pre <;> rfl
    · rw [hsplit]; exact directPass_append _ _ _ _ _ hpre hf hv

/-- Witness for C1: a section with an earlier non-array fence, a first
array fence and a later array fence resolves to the first array fence's
value; the spec's fence-preference example resolves to the fenced object,
ignoring the surrounding noise. -/
theorem c1_witness :
    extractArray (some "```json 7 ``` ```json [1,2] ``` ```json [3] ```") =
      some (.arr [.num "1", .num "2"]) ∧
    extractObject (some "noise ```json \x7b\"a\":1\x7d ``` trailing") =
      some (.obj [("a", .num "1")]) :=
  ⟨c1_earliest_fence_direct_parse_wins.1 _ ["7"] ["[3]"] "[1,2]" _ rfl
      (by decide) rfl rfl,
   c1_earliest_fence_direct_parse_wins.2 _ [] [] "\x7b\"a\":1\x7d" _ rfl
      (by simp) rfl rfl⟩

/-- C2, counterexample: the raw text three-backticks ` [1,2] `
three-backticks has no tagged block but one generic delimited block whose
content `[1,2]` parses as an array (the dead helper `unwrapCodeOrQuotes`
even extracts it), yet `extractArray` returns the failure value without
attempting it — the resolver does not fall back to generic blocks.  The
object case fails the same way. -/
theorem c2_counterexample :
    getAllJsonFences (some "``` [1,2] ```") = [] ∧
    unwrapCodeOrQuotes (some "``` [1,2] ```") = "[1,2]" ∧
    jsonParse "[1,2]" = some (.arr [.num "1", .num "2"]) ∧
    extractArray (some "``` [1,2] ```") = none ∧
    unwrapCodeOrQuotes (some "``` \x7b\"a\":1\x7d ```") = "\x7b\"a\":1\x7d" ∧
    extractObject (some "``` \x7b\"a\":1\x7d ```") = none :=
  ⟨rfl, rfl, rfl, rfl, rfl, rfl⟩

/-- C2 as amended: the resolver never looks past the tagged-fence list —
its result is a function of `getAllJsonFences` alone, so generic delimited
blocks are never extracted or parsed, and with no tagged block it fails
immediately with the null value. -/
theorem c2_amended_only_tagged_fences :
    (∀ t1 t2 : Option String, getAllJsonFences t1 = getAllJsonFences t2 →
      extractArray t1 = extractArray t2 ∧ extractObject t1 = extractObject t2) ∧
    (∀ txt, getAllJsonFences txt = [] →
      extractArray txt = none ∧ extractObject txt = none) := by
  constructor
  · intro t1 t2 h
    constructor
    · unfold extractArray; rw [h]
    · unfold extractObject; rw [h]
  · exact fun txt h => resolver_none_of_no_fences txt h

/-- Witness for C2's amended claim: the generic-only block text resolves
exactly as the absent input does — to the null value. -/
theorem c2_amended_witness :
    extractArray (some "``` [1,2] ```") = extractArray none ∧
    extractObject (some "``` [1,2] ```") = extractObject none :=
  c2_amended_only_tagged_fences.1 (some "``` [1,2] ```") none rfl

/-- C3: on the array-expected section whose fenced body is the
unterminated array `[ \x7b"a":1\x7d , \x7b"b":2\x7d `, recovery mode scans
every balanced object span, parses each independently, and the resolver
returns the array of both objects in document order. -/
theorem c3_recovery_mode_unterminated_array :
    extractArray (some "```json [\x7b\"a\":1\x7d, \x7b\"b\":2\x7d ```") =
      some (.arr [.obj [("a", .num "1")], .obj [("b", .num "2")]]) ∧
    extractAllBalancedObjects "[\x7b\"a\":1\x7d, \x7b\"b\":2\x7d" =
      [.obj [("a", .num "1")], .obj [("b", .num "2")]] :=
  ⟨rfl, rfl⟩

/-- C4: the bracket scanner is string-literal-aware — a closing delimiter
inside a double-quoted string is inert, a quote preceded by a backslash
does not end the string, and the span begins at the first opening
delimiter seen outside a string: the spec's example returns the whole
object, the escaped-quote variant returns the whole object, and a brace
inside a leading quoted string does not start the span. -/
theorem c4_string_aware_scanner :
    extractFirstBalanced "\x7b\"a\":\"value with \x7d inside\"\x7d" '\x7b' '\x7d' =
      some "\x7b\"a\":\"value with \x7d inside\"\x7d" ∧
    extractFirstBalanced "\x7b\"a\":\"x\\\"\x7d y\"\x7d" '\x7b' '\x7d' =
      some "\x7b\"a\":\"x\\\"\x7d y\"\x7d" ∧
    extractFirstBalanced "\"\x7bskip\" \x7bx\x7d" '\x7b' '\x7d' =
      some "\x7bx\x7d" :=
  ⟨rfl, rfl, rfl⟩

/-- C5: when no block parses directly, the resolver re-attempts on the
slice to the first balanced span: the spec's example with commentary
around the object resolves to the object, and the slicer prefers an
array-shaped span over an earlier object-shaped span. -/
theorem c5_slice_fallback :
    extractObject (some "```json Here is the result: \x7b\"a\":1\x7d Thanks! ```") =
      some (.obj [("a", .num "1")]) ∧
    sliceToFirstJSON "\x7b\"a\":1\x7d [1,2]" = "[1,2]" :=
  ⟨rfl, rfl⟩

/-- C6: resolution failure is always signalled as the null value, never an
exception (the model functions are total by construction): whenever the
input has no tagged fenced block — in particular for a missing/non-string
input or the empty string — both resolver functions return `none`. -/
theorem c6_total_resolution_failure :
    (∀ txt, getAllJsonFences txt = [] →
      extractArray txt = none ∧ extractObject txt = none) ∧
    extractArray none = none ∧ extractObject none = none ∧
    extractArray (some "") = none ∧ extractObject (some "") = none := by
  refine ⟨fun txt h => resolver_none_of_no_fences txt h, ?_, ?_, ?_, ?_⟩ <;> rfl

/-- Witness for C6: raw text with no fenced content (bracketed content
only) resolves to the null value for both resolver functions. -/
theorem c6_witness :
    getAllJsonFences (some "hello \x7b\"a\":1\x7d") = [] ∧
    extractArray (some "hello \x7b\"a\":1\x7d") = none ∧
    extractObject (some "hello \x7b\"a\":1\x7d") = none :=
  ⟨rfl, (c6_total_resolution_failure.1 (some "hello \x7b\"a\":1\x7d") rfl).1,
    (c6_total_resolution_failure.1 (some "hello \x7b\"a\":1\x7d") rfl).2⟩

/-- C7: cancellation is cooperative.  The pipeline's behaviour is a
function of the abort flag's values at the five stage-boundary checks
alone (the flag is inspected solely there, so a stage invocation in
flight — modelled as atomic — always runs to completion), and when the
flag is first observed set at boundary `i` the pipeline performs exactly
the first `i` section calls and nothing further — no later section and no
finalize call.  A cancel request itself only sets the flag (plus local UI
state); it performs no stage invocation. -/
theorem c7_cooperative_cancellation :
    (∀ f g : Nat → Bool, (∀ j, j < analysisLabels.length → f j = g j) →
      startAnalysisCalls f = startAnalysisCalls g) ∧
    (∀ (f : Nat → Bool) (i : Nat), i < analysisLabels.length → f i = true →
      (∀ j, j < i → f j = false) →
      startAnalysisCalls f = (analysisLabels.take i).map StageCall.sectionCall) ∧
    (∀ st : CancelUIState, (handleCancelJob st).abortFlag = true) := by
  refine ⟨fun f g h => ?_, fun f i hi hfi hj => ?_, fun st => rfl⟩
  · unfold startAnalysisCalls
    rw [sectionLoop_congr f g analysisLabels 0 (fun j _ h2 => h j (by simpa using h2))]
  · unfold startAnalysisCalls
    rw [sectionLoop_honored f analysisLabels 0 i hi (by simpa using hfi)
      (fun m hm => by simpa using hj m hm)]
    simp

/-- Witness for C7: with the abort flag raised from the third boundary
check on, exactly the first two section calls happen and the finalize call
never does. -/
theorem c7_witness :
    startAnalysisCalls (fun j => decide (2 ≤ j)) =
      (analysisLabels.take 2).map StageCall.sectionCall :=
  c7_cooperative_cancellation.2.1 _ 2 (by decide) (by decide) (by decide)

/-- C8, counterexample: a transient network failure on the first poll ends
the polling loop after that single poll with a propagated exception — the
queued terminal response is never observed — whereas a successful
non-terminal response does lead to the next poll on the normal interval.
So the client does not retry after a network failure. -/
theorem c8_counterexample :
    pollLoop [.netFail, .ok "done" true] 0 = (1, .threw) ∧
    pollLoop [.netFail, .ok "done" true] 0 ≠ (2, .completed) ∧
    pollLoop [.ok "running" false, .ok "done" true] 0 = (2, .completed) :=
  ⟨rfl, by decide, rfl⟩

/-- C8 as amended: on a transient network failure the polling loop aborts —
the rejection propagates and no further poll is ever scheduled, whatever
responses would have followed; the fixed-interval re-poll happens exactly
after a successful response that is neither `done`-with-result, nor
`cancelled`, nor `error`. -/
theorem c8_amended_netfail_aborts :
    (∀ (rest : List PollResponse) (n : Nat),
      pollLoop (.netFail :: rest) n = (n + 1, .threw)) ∧
    (∀ (rest : List PollResponse) (n : Nat) (status : String) (hasResult : Bool),
      ¬(status = "done" ∧ hasResult = true) → status ≠ "cancelled" →
      status ≠ "error" →
      pollLoop (.ok status hasResult :: rest) n = pollLoop rest (n + 1)) := by
  constructor
  · intro rest n; rfl
  · intro rest n status hasResult h1 h2 h3
    conv_lhs => rw [pollLoop]
    rw [if_neg (fun hc => h1 (by simpa using hc)), if_neg h2, if_neg h3]

/-- Witness for C8's amended claim: a network failure after three polls
throws on the fourth with nothing further, and a `running` response leads
to the next scheduled poll. -/
theorem c8_amended_witness :
    pollLoop [.netFail] 3 = (4, .threw) ∧
    pollLoop [.ok "running" false] 0 = pollLoop [] 1 :=
  ⟨c8_amended_netfail_aborts.1 [] 3,
   c8_amended_netfail_aborts.2 [] 0 "running" false (by simp) (by simp) (by simp)⟩

/-- C9: clearing state removes both durable local-storage keys (the job
snapshot and the result bundle), and when a job with a (truthy) id is
still active the exact action sequence shows the best-effort server
cancel/cleanup call for that id happening before the client state reset
and the key removals.  (The source issues the call for any existing job
with a truthy id, which covers the active case.) -/
theorem c9_clear_state :
    (∀ st : ClientState, (clearAll st).2.storedJobKey = false ∧
      (clearAll st).2.storedResultKey = false) ∧
    (∀ (st : ClientState) (j : JobSnapshot), st.job = some j → j.id ≠ "" →
      (j.status = "pending" ∨ j.status = "running") →
      (clearAll st).1 = [.setAbortFlag, .serverClearCall j.id,
        .resetComponentState, .removeJobKey, .removeResultKey, .reloadPage]) := by
  constructor
  · intro st; exact ⟨rfl, rfl⟩
  · intro st j hjob hid _
    simp [clearAll, hjob, hid]

/-- Witness for C9 at a concrete running job with both keys present. -/
theorem c9_witness :
    (clearAll ⟨some ⟨"job-1", "running"⟩, true, true, true, true⟩).1 =
      [.setAbortFlag, .serverClearCall "job-1", .resetComponentState,
        .removeJobKey, .removeResultKey, .reloadPage] ∧
    (clearAll ⟨some ⟨"job-1", "running"⟩, true, true, true, true⟩).2.storedJobKey = false ∧
    (clearAll ⟨some ⟨"job-1", "running"⟩, true, true, true, true⟩).2.storedResultKey = false :=
  ⟨c9_clear_state.2 _ ⟨"job-1", "running"⟩ rfl (by decide) (Or.inr rfl),
    (c9_clear_state.1 _).1, (c9_clear_state.1 _).2⟩

/-- C10: shape invariant of the resolver interface — `extractArray` always
returns `none` or an array value, `extractObject` always returns `none` or
a plain (non-null, non-array) object value, and every element the recovery
scan collects is a plain object parsed from a balanced span (unparseable
spans are skipped silently, reflected by the scan only ever keeping
successful plain-object parses). -/
theorem c10_shape_invariant :
    (∀ txt, extractArray txt = none ∨ ∃ xs, extractArray txt = some (.arr xs)) ∧
    (∀ txt, extractObject txt = none ∨ ∃ fs, extractObject txt = some (.obj fs)) ∧
    (∀ s, (extractAllBalancedObjects s).all isPlainObjVal = true) := by
  refine ⟨fun txt => ?_, fun txt => ?_,
    fun s => extractAllBalancedObjectsAux_all_obj _ _ _ _ _⟩
  · by_cases hE : (getAllJsonFences txt).isEmpty = true
    · left; simp [extractArray, hE]
    · rw [Bool.not_eq_true] at hE
      cases hd : directPass isArrVal (getAllJsonFences txt) with
      | some v =>
        obtain ⟨xs, rfl⟩ := isArrVal_elim v (directPass_shape _ _ _ hd)
        right
        exact ⟨xs, by simp [extractArray, hE, hd]⟩
      | none =>
        cases hs : slicedPass isArrVal (getAllJsonFences txt) with
        | some w =>
          obtain ⟨xs, rfl⟩ := isArrVal_elim w (slicedPass_shape _ _ _ hs)
          right
          exact ⟨xs, by simp [extractArray, hE, hd, hs]⟩
        | none =>
          by_cases hR : (collectRecovered (getAllJsonFences txt)).isEmpty = true
          · left; simp [extractArray, hE, hd, hs, hR]
          · rw [Bool.not_eq_true] at hR
            right
            exact ⟨collectRecovered (getAllJsonFences txt),
              by simp [extractArray, hE, hd, hs, hR]⟩
  · by_cases hE : (getAllJsonFences txt).isEmpty = true
    · left; simp [extractObject, hE]
    · rw [Bool.not_eq_true] at hE
      cases hd : directPass isPlainObjVal (getAllJsonFences txt) with
      | some v =>
        obtain ⟨fs, rfl⟩ := isPlainObjVal_elim v (directPass_shape _ _ _ hd)
        right
        exact ⟨fs, by simp [extractObject, hE, hd]⟩
      | none =>
        cases hs : slicedPass isPlainObjVal (getAllJsonFences txt) with
        | some w =>
          obtain ⟨fs, rfl⟩ := isPlainObjVal_elim w (slicedPass_shape _ _ _ hs)
          right
          exact ⟨fs, by simp [extractObject, hE, hd, hs]⟩
        | none =>
          left
          simp [extractObject, hE, hd, hs]

end GenAIExchange
